import Mathlib

/-!
Verification of the secret-replicator controller (`dm0275/secret-replicator`).

This file shallowly embeds the reconciliation engine of the controller:
the annotation parsing helpers, the configuration validator, the namespace
selection, and the per-namespace convergence routine `createSecret`, together
with the `utils` package helpers (`ListContains`, `SlicesOverlap`,
`AppendListItem`).

The cluster API is modelled as an explicit state (`Cluster`): a list of
secrets, the live namespace names, and failure-injection fields for the
fallible API calls (`get` returning a non-NotFound error, namespace `list`
failing, `create`/`update` failing).  Every API call the engine issues is
recorded in a trace (`List ApiCall`), so that properties about which calls a
reconciliation pass performs can be stated directly.

Go standard-library functions used by the source (`strconv.ParseBool`,
`strings.Split` with a comma separator, `time.ParseDuration`) are embedded
faithfully below.  Durations are nanosecond counts carried as `Int`
(Go's `time.Duration` is an `int64`; all values produced here fit).
-/

namespace SecretReplicator

/-! ## Go standard-library models -/

/-- Models Go `strconv.ParseBool`: accepts exactly the listed strings and
fails (returns `none`) on everything else, in particular the empty string. -/
def goParseBool (s : String) : Option Bool :=
  if s = "1" ∨ s = "t" ∨ s = "T" ∨ s = "TRUE" ∨ s = "true" ∨ s = "True" then
    some true
  else if s = "0" ∨ s = "f" ∨ s = "F" ∨ s = "FALSE" ∨ s = "false" ∨ s = "False" then
    some false
  else
    none

/-- Helper for `goSplit`: splits a character list on `','`, accumulating the
current field in reverse. -/
def goSplitAux : List Char → List Char → List String
  | [], acc => [String.mk acc.reverse]
  | c :: rest, acc =>
      if c = ',' then
        String.mk acc.reverse :: goSplitAux rest []
      else
        goSplitAux rest (c :: acc)

/-- Models Go `strings.Split(s, ",")`: the list of substrings between commas.
On the empty string it returns `[""]` (a one-element list), as Go does. -/
def goSplit (s : String) : List String :=
  goSplitAux s.data []

/-- Models Go `time.leadingInt`: consumes leading decimal digits into the
accumulator, erroring out (`none`) on overflow past `2^63`. -/
def leadingInt : List Char → Nat → Option (Nat × List Char)
  | [], x => some (x, [])
  | c :: rest, x =>
      if c.isDigit then
        if x > 2 ^ 63 / 10 then
          none
        else
          let y := x * 10 + (c.toNat - '0'.toNat)
          if y > 2 ^ 63 then none else leadingInt rest y
      else
        some (x, c :: rest)

/-- Models Go `time.leadingFraction`: consumes digits after the decimal
point, returning the digits' value, the power-of-ten scale, and the rest;
once the value would overflow, further digits are consumed but ignored. -/
def leadingFraction : List Char → Nat → Nat → Bool → Nat × Nat × List Char
  | [], x, scale, _ => (x, scale, [])
  | c :: rest, x, scale, overflow =>
      if c.isDigit then
        if overflow then
          leadingFraction rest x scale true
        else if x > (2 ^ 63 - 1) / 10 then
          leadingFraction rest x scale true
        else
          let y := x * 10 + (c.toNat - '0'.toNat)
          if y > 2 ^ 63 then
            leadingFraction rest x scale true
          else
            leadingFraction rest y (scale * 10) false
      else
        (x, scale, c :: rest)

/-- Consumes the unit part of a duration term: the characters up to the next
digit or `'.'`. -/
def takeUnit : List Char → List Char × List Char
  | [] => ([], [])
  | c :: rest =>
      if c = '.' ∨ c.isDigit then
        ([], c :: rest)
      else
        let p := takeUnit rest
        (c :: p.1, p.2)

/-- Models Go's `unitMap` for `time.ParseDuration`: nanoseconds per unit. -/
def unitMap (u : String) : Option Nat :=
  if u = "ns" then some 1
  else if u = "us" ∨ u = "µs" ∨ u = "μs" then some 1000
  else if u = "ms" then some 1000000
  else if u = "s" then some 1000000000
  else if u = "m" then some 60000000000
  else if u = "h" then some 3600000000000
  else none

/-- Models the term loop of Go `time.ParseDuration`: repeatedly parses
`[0-9]*(\.[0-9]*)?unit` terms and accumulates their nanosecond values,
failing on a malformed term or on overflow past `2^63`.  The fractional
contribution `f * unit / scale` is computed with exact natural division;
Go computes it in `float64`, which agrees on every value the computation
represents exactly (all practically occurring inputs).  Recursion is fueled;
each iteration consumes at least one character, so fuel `length + 1` always
suffices. -/
def parseTerms : Nat → List Char → Nat → Option Nat
  | 0, _, _ => none
  | _ + 1, [], d => some d
  | fuel + 1, c :: cs, d =>
      if ¬(c = '.' ∨ c.isDigit) then
        none
      else
        match leadingInt (c :: cs) 0 with
        | none => none
        | some (v, s1) =>
            let pre := s1.length != (c :: cs).length
            let step :=
              match s1 with
              | '.' :: s1' =>
                  let q := leadingFraction s1' 0 1 false
                  (q.1, q.2.1, q.2.2, q.2.2.length != s1'.length)
              | _ => (0, 1, s1, false)
            let f := step.1
            let scale := step.2.1
            let s2 := step.2.2.1
            let post := step.2.2.2
            if !pre && !post then
              none
            else
              let p := takeUnit s2
              if p.1 = [] then
                none
              else
                match unitMap (String.mk p.1) with
                | none => none
                | some unit =>
                    if v > 2 ^ 63 / unit then
                      none
                    else
                      let v1 := v * unit
                      let v2 := if f > 0 then v1 + f * unit / scale else v1
                      if v2 > 2 ^ 63 then
                        none
                      else
                        let d' := d + v2
                        if d' > 2 ^ 63 then none else parseTerms fuel p.2 d'

/-- Models Go `time.ParseDuration`: an optional sign, the special case `"0"`,
then a nonempty sequence of number-unit terms.  Returns the duration in
nanoseconds, or `none` when Go would return an error. -/
def goParseDuration (s : String) : Option Int :=
  let l := s.data
  let signed :=
    match l with
    | '-' :: rest => (true, rest)
    | '+' :: rest => (false, rest)
    | _ => (false, l)
  let neg := signed.1
  let l1 := signed.2
  if l1 = ['0'] then some 0
  else if l1 = [] then none
  else
    match parseTerms (l1.length + 1) l1 0 with
    | none => none
    | some d =>
        if neg then some (-(d : Int))
        else if d > 2 ^ 63 - 1 then none
        else some (d : Int)

/-! ## The `utils` package -/

/-- Embeds `utils.ListContains`: linear scan for an exact string match. -/
def ListContains : List String → String → Bool
  | [], _ => false
  | a :: rest, e => if a = e then true else ListContains rest e

/-- Embeds `utils.SlicesOverlap`: true when some element of `slice2` occurs
in `slice1` (the Go code materialises `slice1` as a set and scans `slice2`). -/
def SlicesOverlap (slice1 slice2 : List String) : Bool :=
  slice2.any fun elem => slice1.contains elem

/-- Embeds `utils.AppendListItem`: returns the list unchanged when the item
already occurs in it, otherwise the list with the item appended. -/
def AppendListItem {T : Type} [DecidableEq T] (list : List T) (item : T) : List T :=
  if list.contains item then list else list ++ [item]

/-! ## Data model -/

/-- A `(namespace, name)` pair identifying an object, as in
`k8s.io/apimachinery` `types.NamespacedName`. -/
structure NamespacedName where
  ns : String
  name : String
deriving DecidableEq, Repr

/-- A secret: its identity, its metadata annotations (`anns`, a map from
string keys to string values, modelled as an association list with unique
keys), and its data payload (a map from keys to values, modelled as an
association list in canonical form so that list equality coincides with
Go `reflect.DeepEqual` on the maps). -/
structure Secret where
  name : String
  ns : String
  anns : List (String × String)
  data : List (String × String)
deriving DecidableEq, Repr

/-- Go map lookup `m[k]` on the association-list model: the value at the
first matching key, `none` when absent. -/
def lookupAnn (anns : List (String × String)) (k : String) : Option String :=
  (anns.find? fun p => p.1 = k).map Prod.snd

/-- Annotation key prefix `annotationKey` from the source. -/
def annKey : String := "secret-replicator.fussionlabs.com"

/-- Suffix `replicatedFromKey` from the source. -/
def replicatedFromKey : String := "replicated-from"

/-- Suffix `replicationAllowedKey` from the source. -/
def replicationAllowedKey : String := "replication-allowed"

/-- Suffix `allowedNamespacesKey` from the source. -/
def allowedNamespacesKey : String := "allowed-namespaces"

/-- Suffix `excludedNamespacesKey` from the source. -/
def excludedNamespacesKey : String := "excluded-namespaces"

/-- Suffix `reconciliationIntervalKey` from the source. -/
def reconciliationIntervalKey : String := "reconcile-interval"

/-- Default reconcile interval: 5 minutes, in nanoseconds
(`defaultReconcileInterval` in the source). -/
def defaultReconcileInterval : Int := 5 * 60 * 1000000000

/-- One cluster-API call issued by the reconciler, as recorded in the trace. -/
inductive ApiCall where
  | get (ns name : String)
  | list
  | create (s : Secret)
  | update (s : Secret)
deriving DecidableEq, Repr

/-- The modelled cluster state: the secrets present, the live namespace
names, and failure injection for the fallible API calls.  `getFailKeys`
lists `(namespace, name)` pairs whose `Get` returns an error other than
NotFound; `listFails` makes the namespace `List` call fail; `createFailNss`
and `updateFailKeys` make `Create` / `Update` fail (the call is still
issued, but the state does not change). -/
structure Cluster where
  secrets : List Secret
  namespaces : List String
  listFails : Bool
  getFailKeys : List (String × String)
  createFailNss : List String
  updateFailKeys : List (String × String)
deriving DecidableEq, Repr

/-- Result of a modelled `Get` call. -/
inductive GetResult where
  | found (s : Secret)
  | notFound
  | otherError
deriving DecidableEq, Repr

/-- Models `r.Client.Get` for a secret key: an injected error, the first
secret with the matching identity, or NotFound. -/
def getSecret (c : Cluster) (ns name : String) : GetResult :=
  if (ns, name) ∈ c.getFailKeys then
    .otherError
  else
    match c.secrets.find? fun s => s.ns = ns ∧ s.name = name with
    | some s => .found s
    | none => .notFound

/-- Models the state change of a successful `Update`: the secret with the
same identity is replaced. -/
def updateInCluster (c : Cluster) (s : Secret) : Cluster :=
  { c with secrets := c.secrets.map fun t => if t.ns = s.ns ∧ t.name = s.name then s else t }

/-- The `ctrl.Result` returned by `Reconcile`: Go's zero value has
`RequeueAfter = 0`. -/
structure CtrlResult where
  requeueAfter : Int := 0
deriving DecidableEq, Repr

/-- The error cases `Reconcile` can surface to its caller. -/
inductive ReconcileError where
  | sourceGetError
  | configurationError
  | listError
deriving DecidableEq, Repr

/-- The reconciler state: the process-local tracked source list
(`SecretList` in the source). -/
structure SecretReconciler where
  SecretList : List NamespacedName
deriving DecidableEq, Repr

/-- Everything one `Reconcile` invocation produces: the updated reconciler
and cluster states, the trace of API calls issued, and the returned
`(ctrl.Result, error)` pair. -/
structure ReconcileOutcome where
  reconciler : SecretReconciler
  cluster : Cluster
  calls : List ApiCall
  result : CtrlResult
  err : Option ReconcileError
deriving DecidableEq, Repr

/-! ## The controller functions -/

/-- Embeds `replicateEnabled`: the `replication-allowed` annotation must be
present and parse as a boolean; otherwise `false`. -/
def replicateEnabled (secret : Secret) : Bool :=
  match lookupAnn secret.anns (annKey ++ "/" ++ replicationAllowedKey) with
  | none => false
  | some v =>
      match goParseBool v with
      | none => false
      | some b => b

/-- Embeds `getAllowedNamespaces`: empty when the annotation is absent,
otherwise the comma-split of its value. -/
def getAllowedNamespaces (secret : Secret) : List String :=
  match lookupAnn secret.anns (annKey ++ "/" ++ allowedNamespacesKey) with
  | none => []
  | some v => goSplit v

/-- Embeds `getExcludedNamespaces`: empty when the annotation is absent,
otherwise the comma-split of its value. -/
def getExcludedNamespaces (secret : Secret) : List String :=
  match lookupAnn secret.anns (annKey ++ "/" ++ excludedNamespacesKey) with
  | none => []
  | some v => goSplit v

/-- Embeds `validateConfiguration`: an error exactly when the allowed and
excluded namespace lists overlap. -/
def validateConfiguration (secret : Secret) : Option ReconcileError :=
  if SlicesOverlap (getAllowedNamespaces secret) (getExcludedNamespaces secret) then
    some .configurationError
  else
    none

/-- Embeds `getReconciliationInterval`: the parsed `reconcile-interval`
annotation, with the default on absence or parse failure (the parse failure
is only logged). -/
def getReconciliationInterval (secret : Secret) : Int :=
  match lookupAnn secret.anns (annKey ++ "/" ++ reconciliationIntervalKey) with
  | none => defaultReconcileInterval
  | some v =>
      match goParseDuration v with
      | none => defaultReconcileInterval
      | some interval => interval

/-- Embeds `createSecret`: fetch the replica at `(ns, sourceSecret.name)`;
on NotFound, create a fresh secret with the source's data and the provenance
annotation; when found with equal data, do nothing; when found with
different data, update the fetched secret's data to the source's; on any
other fetch error, only log.  Returns the new cluster state and the API
calls issued; a failed create or update leaves the state unchanged. -/
def createSecret (c : Cluster) (sourceSecret : Secret) (ns : String) :
    Cluster × List ApiCall :=
  match getSecret c ns sourceSecret.name with
  | .notFound =>
      let newSecret : Secret :=
        { name := sourceSecret.name
          ns := ns
          anns := [(annKey ++ "/" ++ replicatedFromKey,
                    sourceSecret.ns ++ "_" ++ sourceSecret.name)]
          data := sourceSecret.data }
      if ns ∈ c.createFailNss then
        (c, [ApiCall.get ns sourceSecret.name, ApiCall.create newSecret])
      else
        ({ c with secrets := c.secrets ++ [newSecret] },
         [ApiCall.get ns sourceSecret.name, ApiCall.create newSecret])
  | .found secret =>
      if sourceSecret.data = secret.data then
        (c, [ApiCall.get ns sourceSecret.name])
      else
        let secret' := { secret with data := sourceSecret.data }
        if (ns, sourceSecret.name) ∈ c.updateFailKeys then
          (c, [ApiCall.get ns sourceSecret.name, ApiCall.update secret'])
        else
          (updateInCluster c secret',
           [ApiCall.get ns sourceSecret.name, ApiCall.update secret'])
  | .otherError => (c, [ApiCall.get ns sourceSecret.name])

/-- The `for _, namespace := range allowedNamespaces` loop of `Reconcile`:
converge every listed namespace in order, threading the cluster state and
concatenating the call traces. -/
def convergeAll (src : Secret) : Cluster → List String → Cluster × List ApiCall
  | c, [] => (c, [])
  | c, ns :: rest =>
      let p := createSecret c src ns
      let q := convergeAll src p.1 rest
      (q.1, p.2 ++ q.2)

/-- The `for _, namespace := range namespaces.Items` loop of `Reconcile`:
skip the source's own namespace and every excluded namespace, converge the
rest in order. -/
def convergeDefault (src : Secret) (excluded : List String) :
    Cluster → List String → Cluster × List ApiCall
  | c, [] => (c, [])
  | c, ns :: rest =>
      if src.ns = ns then
        convergeDefault src excluded c rest
      else if ListContains excluded ns then
        convergeDefault src excluded c rest
      else
        let p := createSecret c src ns
        let q := convergeDefault src excluded p.1 rest
        (q.1, p.2 ++ q.2)

/-- Embeds `Reconcile`: fetch the source secret (NotFound ends the pass
silently, other errors are returned), validate the configuration, stop when
replication is not enabled, record the source in `SecretList`, then either
converge the allowed namespaces, or list the cluster namespaces (a list
failure returns the error with the requeue interval) and converge all but
the source's own and the excluded ones; finish by requeueing after the
reconciliation interval. -/
def Reconcile (r : SecretReconciler) (c : Cluster) (req : NamespacedName) :
    ReconcileOutcome :=
  match getSecret c req.ns req.name with
  | .notFound =>
      { reconciler := r, cluster := c, calls := [ApiCall.get req.ns req.name]
        result := {}, err := none }
  | .otherError =>
      { reconciler := r, cluster := c, calls := [ApiCall.get req.ns req.name]
        result := {}, err := some .sourceGetError }
  | .found secret =>
      match validateConfiguration secret with
      | some e =>
          { reconciler := r, cluster := c, calls := [ApiCall.get req.ns req.name]
            result := {}, err := some e }
      | none =>
          if replicateEnabled secret then
            let r' : SecretReconciler :=
              { SecretList := AppendListItem r.SecretList req }
            let interval := getReconciliationInterval secret
            let allowed := getAllowedNamespaces secret
            if allowed.length > 0 then
              let p := convergeAll secret c allowed
              { reconciler := r', cluster := p.1
                calls := ApiCall.get req.ns req.name :: p.2
                result := { requeueAfter := interval }, err := none }
            else
              if c.listFails then
                { reconciler := r', cluster := c
                  calls := [ApiCall.get req.ns req.name, ApiCall.list]
                  result := { requeueAfter := interval }, err := some .listError }
              else
                let excluded := getExcludedNamespaces secret
                let p := convergeDefault secret excluded c c.namespaces
                { reconciler := r', cluster := p.1
                  calls := ApiCall.get req.ns req.name :: ApiCall.list :: p.2
                  result := { requeueAfter := interval }, err := none }
          else
            { reconciler := r, cluster := c, calls := [ApiCall.get req.ns req.name]
              result := {}, err := none }

/-! ## Trace observations -/

/-- The write calls (creates and updates) in a trace. -/
def writes (tr : List ApiCall) : List ApiCall :=
  tr.filter fun e =>
    match e with
    | .create _ => true
    | .update _ => true
    | _ => false

/-- The namespaces of the `get` calls in a trace: each convergence attempt
for a namespace starts with exactly one `get` there, so on a convergence
trace this lists the attempted target namespaces in order. -/
def attemptedTargets (tr : List ApiCall) : List String :=
  tr.filterMap fun e =>
    match e with
    | .get ns _ => some ns
    | _ => none

/-- Decidable form of "the `replication-allowed` annotation is absent, or its
value fails boolean parsing" (the condition of the fail-closed claim). -/
def replicationFlagMissingOrInvalid (secret : Secret) : Bool :=
  match lookupAnn secret.anns (annKey ++ "/" ++ replicationAllowedKey) with
  | none => true
  | some v => (goParseBool v).isNone

/-! ## Concrete fixtures used by the witness theorems -/

/-- A source secret with overlapping allow and exclude lists. -/
def wOverlapSecret : Secret :=
  { name := "db-creds", ns := "app"
    anns := [("secret-replicator.fussionlabs.com/replication-allowed", "true"),
             ("secret-replicator.fussionlabs.com/allowed-namespaces", "team-a"),
             ("secret-replicator.fussionlabs.com/excluded-namespaces", "team-a")]
    data := [("password", "x")] }

/-- A cluster holding only `wOverlapSecret`. -/
def wOverlapCluster : Cluster :=
  { secrets := [wOverlapSecret], namespaces := ["app", "team-a", "team-b"]
    listFails := false, getFailKeys := [], createFailNss := [], updateFailKeys := [] }

/-- A source secret whose `replication-allowed` annotation is the empty
string (present but not a parseable boolean). -/
def wNoFlagSecret : Secret :=
  { name := "db-creds", ns := "app"
    anns := [("secret-replicator.fussionlabs.com/replication-allowed", "")]
    data := [("password", "x")] }

/-- A cluster holding only `wNoFlagSecret`. -/
def wNoFlagCluster : Cluster :=
  { secrets := [wNoFlagSecret], namespaces := ["app", "team-a"]
    listFails := false, getFailKeys := [], createFailNss := [], updateFailKeys := [] }

/-- An enabled source secret with an explicit allow list `team-a,team-b`. -/
def wAllowSecret : Secret :=
  { name := "db-creds", ns := "app"
    anns := [("secret-replicator.fussionlabs.com/replication-allowed", "true"),
             ("secret-replicator.fussionlabs.com/allowed-namespaces", "team-a,team-b"),
             ("secret-replicator.fussionlabs.com/reconcile-interval", "10m")]
    data := [("password", "x")] }

/-- A cluster holding only `wAllowSecret`. -/
def wAllowCluster : Cluster :=
  { secrets := [wAllowSecret], namespaces := ["app", "team-a", "team-b", "team-c"]
    listFails := false, getFailKeys := [], createFailNss := [], updateFailKeys := [] }

/-- An enabled source secret with no allow list and exclude list `team-a`. -/
def wDefaultSecret : Secret :=
  { name := "db-creds", ns := "app"
    anns := [("secret-replicator.fussionlabs.com/replication-allowed", "true"),
             ("secret-replicator.fussionlabs.com/excluded-namespaces", "team-a")]
    data := [("password", "x")] }

/-- A cluster holding only `wDefaultSecret`, with a live namespace list. -/
def wDefaultCluster : Cluster :=
  { secrets := [wDefaultSecret], namespaces := ["app", "team-a", "team-b", "team-c"]
    listFails := false, getFailKeys := [], createFailNss := [], updateFailKeys := [] }

/-- Same cluster as `wDefaultCluster` but with the namespace list call
failing. -/
def wListFailCluster : Cluster :=
  { secrets := [wDefaultSecret], namespaces := ["app", "team-a", "team-b", "team-c"]
    listFails := true, getFailKeys := [], createFailNss := [], updateFailKeys := [] }

/-- An existing replica in `team-a` whose payload drifted from the source. -/
def wDriftReplica : Secret :=
  { name := "db-creds", ns := "team-a"
    anns := [("custom/keep", "yes")]
    data := [("password", "old")] }

/-- A cluster holding the drifted replica `wDriftReplica` only. -/
def wDriftCluster : Cluster :=
  { secrets := [wDriftReplica], namespaces := ["app", "team-a"]
    listFails := false, getFailKeys := [], createFailNss := [], updateFailKeys := [] }

/-- An empty cluster (no secrets) for the create-branch witnesses. -/
def wEmptyCluster : Cluster :=
  { secrets := [], namespaces := ["app", "team-a"]
    listFails := false, getFailKeys := [], createFailNss := [], updateFailKeys := [] }

/-- An enabled source secret whose `allowed-namespaces` annotation is present
with the empty string as its value. -/
def wEmptyAllowSecret : Secret :=
  { name := "db-creds", ns := "app"
    anns := [("secret-replicator.fussionlabs.com/replication-allowed", "true"),
             ("secret-replicator.fussionlabs.com/allowed-namespaces", "")]
    data := [("password", "x")] }

/-- A cluster holding only `wEmptyAllowSecret`. -/
def wEmptyAllowCluster : Cluster :=
  { secrets := [wEmptyAllowSecret], namespaces := ["app", "team-a"]
    listFails := false, getFailKeys := [], createFailNss := [], updateFailKeys := [] }

/-- An existing replica in `team-a` whose payload already matches the
source. -/
def wSyncedReplica : Secret :=
  { name := "db-creds", ns := "team-a"
    anns := [("secret-replicator.fussionlabs.com/replicated-from", "app_db-creds")]
    data := [("password", "x")] }

/-- A cluster holding the up-to-date replica `wSyncedReplica` only. -/
def wSyncedCluster : Cluster :=
  { secrets := [wSyncedReplica], namespaces := ["app", "team-a"]
    listFails := false, getFailKeys := [], createFailNss := [], updateFailKeys := [] }

/-- The drifted replica after its payload is overwritten with the source's. -/
def wUpdatedReplica : Secret :=
  { wDriftReplica with data := wAllowSecret.data }

/-- The request naming the fixture source secret. -/
def wReq : NamespacedName := { ns := "app", name := "db-creds" }

/-- A reconciler with an empty tracked source list. -/
def wReconciler : SecretReconciler := { SecretList := [] }

/-! ## Helper lemmas -/

/-- A common element makes `SlicesOverlap` true. -/
theorem slicesOverlap_of_mem {a b : List String} {x : String}
    (hxa : x ∈ a) (hxb : x ∈ b) : SlicesOverlap a b = true := by
  simp only [SlicesOverlap, List.any_eq_true]
  exact ⟨x, hxb, by simpa using hxa⟩

/-- When the `replication-allowed` annotation is absent or unparsable,
`replicateEnabled` is false. -/
theorem replicateEnabled_eq_false (secret : Secret)
    (h : replicationFlagMissingOrInvalid secret = true) :
    replicateEnabled secret = false := by
  unfold replicationFlagMissingOrInvalid at h
  unfold replicateEnabled
  cases hv : lookupAnn secret.anns (annKey ++ "/" ++ replicationAllowedKey) with
  | none => rfl
  | some v =>
      cases hp : goParseBool v with
      | none => simp [hp]
      | some b =>
          rw [hv] at h
          replace h : (goParseBool v).isNone = true := h
          rw [hp] at h
          simp at h

/-- A `find?` miss on the first part of an append defers to the second. -/
theorem find?_append_none {α : Type} (p : α → Bool) (l1 l2 : List α)
    (h : l1.find? p = none) : (l1 ++ l2).find? p = l2.find? p := by
  induction l1 with
  | nil => rfl
  | cons a rest ih =>
      rw [List.find?] at h
      cases hp : p a with
      | true => rw [hp] at h; simp at h
      | false =>
          rw [hp] at h
          simpa [List.find?, hp] using ih h

/-- Elimination for a NotFound `Get`: the key has no injected failure and no
secret in the cluster matches it. -/
theorem getSecret_notFound_elim {c : Cluster} {ns name : String}
    (h : getSecret c ns name = .notFound) :
    (ns, name) ∉ c.getFailKeys ∧
      c.secrets.find? (fun s => s.ns = ns ∧ s.name = name) = none := by
  unfold getSecret at h
  by_cases hk : (ns, name) ∈ c.getFailKeys
  · rw [if_pos hk] at h; exact absurd h (by simp)
  · rw [if_neg hk] at h
    refine ⟨hk, ?_⟩
    cases hf : c.secrets.find? (fun s => s.ns = ns ∧ s.name = name) with
    | none => rfl
    | some s => rw [hf] at h; exact absurd h (by simp)

/-- Elimination for a successful `Get`: the key has no injected failure, the
returned secret is the first match, and it carries the requested identity. -/
theorem getSecret_found_elim {c : Cluster} {ns name : String} {rep : Secret}
    (h : getSecret c ns name = .found rep) :
    (ns, name) ∉ c.getFailKeys ∧
      c.secrets.find? (fun s => s.ns = ns ∧ s.name = name) = some rep ∧
      rep.ns = ns ∧ rep.name = name := by
  unfold getSecret at h
  by_cases hk : (ns, name) ∈ c.getFailKeys
  · rw [if_pos hk] at h; exact absurd h (by simp)
  · rw [if_neg hk] at h
    cases hf : c.secrets.find? (fun s => s.ns = ns ∧ s.name = name) with
    | none => rw [hf] at h; exact absurd h (by simp)
    | some s =>
        rw [hf] at h
        have hs : s = rep := by simpa using h
        subst hs
        have hp := List.find?_some hf
        have hp' : s.ns = ns ∧ s.name = name := by simpa using hp
        exact ⟨hk, rfl, hp'.1, hp'.2⟩

/-- After a successful create following NotFound, `Get` finds the new
secret. -/
theorem getSecret_after_append {c : Cluster} {ns name : String} {s : Secret}
    (h : getSecret c ns name = .notFound) (hns : s.ns = ns) (hname : s.name = name) :
    getSecret { c with secrets := c.secrets ++ [s] } ns name = .found s := by
  obtain ⟨hk, hf⟩ := getSecret_notFound_elim h
  unfold getSecret
  rw [if_neg hk]
  rw [find?_append_none _ _ _ hf]
  simp [List.find?, hns, hname]

/-- Replacing the found secret by one with the same identity makes `Get`
return the replacement. -/
theorem find?_map_update (l : List Secret) (ns name : String) (rep s' : Secret)
    (hfind : l.find? (fun s => s.ns = ns ∧ s.name = name) = some rep)
    (hns : s'.ns = ns) (hname : s'.name = name) :
    (l.map fun t => if t.ns = s'.ns ∧ t.name = s'.name then s' else t).find?
      (fun s => s.ns = ns ∧ s.name = name) = some s' := by
  induction l with
  | nil => simp at hfind
  | cons a rest ih =>
      rw [List.find?] at hfind
      by_cases hp : a.ns = ns ∧ a.name = name
      · rw [List.map_cons, List.find?]
        have : (if a.ns = s'.ns ∧ a.name = s'.name then s' else a) = s' := by
          rw [if_pos (by rw [hns, hname]; exact hp)]
        rw [this]
        simp [hns, hname]
      · have hp' : (decide (a.ns = ns ∧ a.name = name)) = false := by
          simpa using hp
        rw [hp'] at hfind
        simp only [cond_false] at hfind
        rw [List.map_cons, List.find?]
        have : (if a.ns = s'.ns ∧ a.name = s'.name then s' else a) = a := by
          rw [if_neg (by rw [hns, hname]; exact hp)]
        rw [this, hp']
        simpa using ih hfind

/-- After a successful update, `Get` finds the updated secret. -/
theorem getSecret_after_update {c : Cluster} {ns name : String} {rep s' : Secret}
    (h : getSecret c ns name = .found rep) (hns : s'.ns = ns) (hname : s'.name = name) :
    getSecret (updateInCluster c s') ns name = .found s' := by
  obtain ⟨hk, hf, _, _⟩ := getSecret_found_elim h
  unfold getSecret updateInCluster
  rw [if_neg hk]
  rw [find?_map_update c.secrets ns name rep s' hf hns hname]

/-- Every branch of `createSecret` issues exactly one `get`, at the target
namespace. -/
theorem createSecret_targets (c : Cluster) (src : Secret) (ns : String) :
    attemptedTargets (createSecret c src ns).2 = [ns] := by
  unfold createSecret
  cases getSecret c ns src.name with
  | notFound => by_cases h : ns ∈ c.createFailNss <;> simp [h, attemptedTargets]
  | found s =>
      by_cases h : src.data = s.data
      · simp [h, attemptedTargets]
      · by_cases h2 : (ns, src.name) ∈ c.updateFailKeys <;>
          simp [h, h2, attemptedTargets]
  | otherError => simp [attemptedTargets]

/-- `createSecret` never issues a namespace `list` call. -/
theorem createSecret_no_list (c : Cluster) (src : Secret) (ns : String) :
    ApiCall.list ∉ (createSecret c src ns).2 := by
  unfold createSecret
  cases getSecret c ns src.name with
  | notFound => by_cases h : ns ∈ c.createFailNss <;> simp [h]
  | found s =>
      by_cases h : src.data = s.data
      · simp [h]
      · by_cases h2 : (ns, src.name) ∈ c.updateFailKeys <;> simp [h, h2]
  | otherError => simp

/-- `attemptedTargets` distributes over trace concatenation. -/
theorem attemptedTargets_append (t1 t2 : List ApiCall) :
    attemptedTargets (t1 ++ t2) = attemptedTargets t1 ++ attemptedTargets t2 := by
  simp [attemptedTargets]

/-- The allow-list loop attempts exactly the listed namespaces, in order. -/
theorem convergeAll_targets (src : Secret) :
    ∀ (c : Cluster) (nss : List String),
      attemptedTargets (convergeAll src c nss).2 = nss := by
  intro c nss
  induction nss generalizing c with
  | nil => rfl
  | cons ns rest ih =>
      unfold convergeAll
      rw [attemptedTargets_append, createSecret_targets, ih]
      rfl

/-- The allow-list loop never issues a namespace `list` call. -/
theorem convergeAll_no_list (src : Secret) :
    ∀ (c : Cluster) (nss : List String),
      ApiCall.list ∉ (convergeAll src c nss).2 := by
  intro c nss
  induction nss generalizing c with
  | nil => simp [convergeAll]
  | cons ns rest ih =>
      unfold convergeAll
      simp only [List.mem_append]
      rintro (h | h)
      · exact createSecret_no_list _ _ _ h
      · exact ih _ h

/-- The default-selection loop attempts exactly the live namespaces other
than the source's own and the excluded ones, in order. -/
theorem convergeDefault_targets (src : Secret) (excluded : List String) :
    ∀ (c : Cluster) (nss : List String),
      attemptedTargets (convergeDefault src excluded c nss).2 =
        nss.filter fun n => !(src.ns == n) && !(ListContains excluded n) := by
  intro c nss
  induction nss generalizing c with
  | nil => rfl
  | cons ns rest ih =>
      unfold convergeDefault
      by_cases h1 : src.ns = ns
      · rw [if_pos h1, ih]
        simp [List.filter_cons, h1]
      · rw [if_neg h1]
        by_cases h2 : ListContains excluded ns = true
        · rw [if_pos h2, ih]
          simp [List.filter_cons, h2]
        · rw [if_neg h2]
          have h2' : ListContains excluded ns = false := by
            cases hLC : ListContains excluded ns
            · rfl
            · exact absurd hLC h2
          rw [attemptedTargets_append, createSecret_targets, ih]
          simp [List.filter_cons, h1, h2']

/-- Reduction of `Reconcile` in the explicit-allow-list branch. -/
theorem reconcile_allow_eq (r : SecretReconciler) (c : Cluster) (req : NamespacedName)
    (secret : Secret)
    (hget : getSecret c req.ns req.name = .found secret)
    (hval : validateConfiguration secret = none)
    (hen : replicateEnabled secret = true)
    (hlen : getAllowedNamespaces secret ≠ []) :
    Reconcile r c req =
      { reconciler := { SecretList := AppendListItem r.SecretList req }
        cluster := (convergeAll secret c (getAllowedNamespaces secret)).1
        calls := ApiCall.get req.ns req.name ::
          (convergeAll secret c (getAllowedNamespaces secret)).2
        result := { requeueAfter := getReconciliationInterval secret }
        err := none } := by
  have hpos : (getAllowedNamespaces secret).length > 0 := List.length_pos.mpr hlen
  simp only [Reconcile, hget, hval, hen, if_true, hpos, if_pos]

/-- Reduction of `Reconcile` in the default-selection branch with a working
namespace list. -/
theorem reconcile_default_eq (r : SecretReconciler) (c : Cluster) (req : NamespacedName)
    (secret : Secret)
    (hget : getSecret c req.ns req.name = .found secret)
    (hval : validateConfiguration secret = none)
    (hen : replicateEnabled secret = true)
    (hlen : getAllowedNamespaces secret = [])
    (hlist : c.listFails = false) :
    Reconcile r c req =
      { reconciler := { SecretList := AppendListItem r.SecretList req }
        cluster :=
          (convergeDefault secret (getExcludedNamespaces secret) c c.namespaces).1
        calls := ApiCall.get req.ns req.name :: ApiCall.list ::
          (convergeDefault secret (getExcludedNamespaces secret) c c.namespaces).2
        result := { requeueAfter := getReconciliationInterval secret }
        err := none } := by
  simp only [Reconcile, hget, hval, hen, if_true, hlen, hlist, List.length_nil,
    gt_iff_lt, lt_self_iff_false, if_false, Bool.false_eq_true]

/-- Reduction of `Reconcile` when the namespace list call fails. -/
theorem reconcile_listfail_eq (r : SecretReconciler) (c : Cluster) (req : NamespacedName)
    (secret : Secret)
    (hget : getSecret c req.ns req.name = .found secret)
    (hval : validateConfiguration secret = none)
    (hen : replicateEnabled secret = true)
    (hlen : getAllowedNamespaces secret = [])
    (hlist : c.listFails = true) :
    Reconcile r c req =
      { reconciler := { SecretList := AppendListItem r.SecretList req }
        cluster := c
        calls := [ApiCall.get req.ns req.name, ApiCall.list]
        result := { requeueAfter := getReconciliationInterval secret }
        err := some .listError } := by
  simp only [Reconcile, hget, hval, hen, if_true, hlen, hlist, List.length_nil,
    gt_iff_lt, lt_self_iff_false, if_false, Bool.false_eq_true]

/-- Reduction of `Reconcile` when validation fails. -/
theorem reconcile_invalid_eq (r : SecretReconciler) (c : Cluster) (req : NamespacedName)
    (secret : Secret) (e : ReconcileError)
    (hget : getSecret c req.ns req.name = .found secret)
    (hval : validateConfiguration secret = some e) :
    Reconcile r c req =
      { reconciler := r, cluster := c, calls := [ApiCall.get req.ns req.name]
        result := {}, err := some e } := by
  simp only [Reconcile, hget, hval]

/-- Reduction of `Reconcile` when replication is not enabled. -/
theorem reconcile_disabled_eq (r : SecretReconciler) (c : Cluster) (req : NamespacedName)
    (secret : Secret)
    (hget : getSecret c req.ns req.name = .found secret)
    (hval : validateConfiguration secret = none)
    (hen : replicateEnabled secret = false) :
    Reconcile r c req =
      { reconciler := r, cluster := c, calls := [ApiCall.get req.ns req.name]
        result := {}, err := none } := by
  simp only [Reconcile, hget, hval, hen, Bool.false_eq_true, if_false]

/-- A `Get` returning a non-NotFound error means the key has an injected
failure. -/
theorem getSecret_otherError_mem {c : Cluster} {ns name : String}
    (h : getSecret c ns name = .otherError) : (ns, name) ∈ c.getFailKeys := by
  by_cases hk : (ns, name) ∈ c.getFailKeys
  · exact hk
  · unfold getSecret at h
    rw [if_neg hk] at h
    cases hf : c.secrets.find? (fun s => s.ns = ns ∧ s.name = name) with
    | none => rw [hf] at h; exact absurd h (by simp)
    | some s => rw [hf] at h; exact absurd h (by simp)

/-- Reduction of `createSecret` in the successful create branch. -/
theorem createSecret_notFound_ok_eq (c : Cluster) (src : Secret) (ns : String)
    (hget : getSecret c ns src.name = .notFound) (hcf : ns ∉ c.createFailNss) :
    createSecret c src ns =
      ({ c with secrets := c.secrets ++
           [{ name := src.name, ns := ns
              anns := [(annKey ++ "/" ++ replicatedFromKey, src.ns ++ "_" ++ src.name)]
              data := src.data }] },
       [ApiCall.get ns src.name,
        ApiCall.create
          { name := src.name, ns := ns
            anns := [(annKey ++ "/" ++ replicatedFromKey, src.ns ++ "_" ++ src.name)]
            data := src.data }]) := by
  simp [createSecret, hget, hcf]

/-- Reduction of `createSecret` when the create call fails. -/
theorem createSecret_notFound_fail_eq (c : Cluster) (src : Secret) (ns : String)
    (hget : getSecret c ns src.name = .notFound) (hcf : ns ∈ c.createFailNss) :
    createSecret c src ns =
      (c,
       [ApiCall.get ns src.name,
        ApiCall.create
          { name := src.name, ns := ns
            anns := [(annKey ++ "/" ++ replicatedFromKey, src.ns ++ "_" ++ src.name)]
            data := src.data }]) := by
  simp [createSecret, hget, hcf]

/-- Reduction of `createSecret` when the replica is up to date. -/
theorem createSecret_found_same_eq (c : Cluster) (src : Secret) (ns : String)
    (rep : Secret)
    (hget : getSecret c ns src.name = .found rep) (hd : src.data = rep.data) :
    createSecret c src ns = (c, [ApiCall.get ns src.name]) := by
  simp [createSecret, hget, hd]

/-- Reduction of `createSecret` in the successful update branch. -/
theorem createSecret_found_diff_ok_eq (c : Cluster) (src : Secret) (ns : String)
    (rep : Secret)
    (hget : getSecret c ns src.name = .found rep) (hd : src.data ≠ rep.data)
    (huf : (ns, src.name) ∉ c.updateFailKeys) :
    createSecret c src ns =
      (updateInCluster c { rep with data := src.data },
       [ApiCall.get ns src.name, ApiCall.update { rep with data := src.data }]) := by
  simp [createSecret, hget, hd, huf]

/-- Reduction of `createSecret` when the update call fails. -/
theorem createSecret_found_diff_fail_eq (c : Cluster) (src : Secret) (ns : String)
    (rep : Secret)
    (hget : getSecret c ns src.name = .found rep) (hd : src.data ≠ rep.data)
    (huf : (ns, src.name) ∈ c.updateFailKeys) :
    createSecret c src ns =
      (c, [ApiCall.get ns src.name, ApiCall.update { rep with data := src.data }]) := by
  simp [createSecret, hget, hd, huf]

/-- Reduction of `createSecret` on any other fetch error. -/
theorem createSecret_otherError_eq (c : Cluster) (src : Secret) (ns : String)
    (hget : getSecret c ns src.name = .otherError) :
    createSecret c src ns = (c, [ApiCall.get ns src.name]) := by
  simp [createSecret, hget]

/-- The tracked source list after a pass is either unchanged or the result
of a single `AppendListItem` of the request's identity. -/
theorem reconcile_secretList_cases (r : SecretReconciler) (c : Cluster)
    (req : NamespacedName) :
    (Reconcile r c req).reconciler = r ∨
    (Reconcile r c req).reconciler =
      { SecretList := AppendListItem r.SecretList req } := by
  cases hget : getSecret c req.ns req.name with
  | notFound => left; simp [Reconcile, hget]
  | otherError => left; simp [Reconcile, hget]
  | found secret =>
      cases hval : validateConfiguration secret with
      | some e => left; rw [reconcile_invalid_eq r c req secret e hget hval]
      | none =>
          cases hen : replicateEnabled secret with
          | false => left; rw [reconcile_disabled_eq r c req secret hget hval hen]
          | true =>
              right
              by_cases hlen : getAllowedNamespaces secret = []
              · cases hfl : c.listFails with
                | true => rw [reconcile_listfail_eq r c req secret hget hval hen hlen hfl]
                | false => rw [reconcile_default_eq r c req secret hget hval hen hlen hfl]
              · rw [reconcile_allow_eq r c req secret hget hval hen hlen]

/-- `AppendListItem` on a present element returns the list unchanged. -/
theorem appendListItem_of_mem {T : Type} [DecidableEq T] {l : List T} {x : T}
    (h : x ∈ l) : AppendListItem l x = l := by
  unfold AppendListItem
  rw [if_pos (by simpa using h)]

/-- `AppendListItem` on an absent element appends it once. -/
theorem appendListItem_of_not_mem {T : Type} [DecidableEq T] {l : List T} {x : T}
    (h : x ∉ l) : AppendListItem l x = l ++ [x] := by
  unfold AppendListItem
  rw [if_neg (by simpa using h)]

/-! ## Claim theorems -/

/-- C1: For every secret whose allowed-namespaces and excluded-namespaces
annotation lists share at least one element (exact string equality),
`Reconcile` terminates with a configuration error and issues no create or
update call to the cluster API (and leaves the cluster unchanged). -/
theorem reconcile_overlap_errors_without_writes
    (r : SecretReconciler) (c : Cluster) (req : NamespacedName) (secret : Secret)
    (x : String)
    (hget : getSecret c req.ns req.name = .found secret)
    (hx : x ∈ getAllowedNamespaces secret)
    (hx' : x ∈ getExcludedNamespaces secret) :
    (Reconcile r c req).err = some .configurationError ∧
    writes (Reconcile r c req).calls = [] ∧
    (Reconcile r c req).cluster = c := by
  have hov := slicesOverlap_of_mem hx hx'
  have hval : validateConfiguration secret = some .configurationError := by
    unfold validateConfiguration
    rw [if_pos hov]
  rw [reconcile_invalid_eq r c req secret _ hget hval]
  exact ⟨rfl, by simp [writes], rfl⟩

/-- Witness: the overlap claim applied to the concrete fixture whose allow
and exclude lists both contain `team-a`. -/
theorem reconcile_overlap_errors_without_writes_witness :
    (Reconcile wReconciler wOverlapCluster wReq).err = some .configurationError ∧
    writes (Reconcile wReconciler wOverlapCluster wReq).calls = [] ∧
    (Reconcile wReconciler wOverlapCluster wReq).cluster = wOverlapCluster :=
  reconcile_overlap_errors_without_writes wReconciler wOverlapCluster wReq
    wOverlapSecret "team-a" (by decide) (by decide) (by decide)

/-- C2: For every secret whose replication-allowed annotation is absent,
empty, or not parseable as a boolean, `Reconcile` issues no create or
update call and leaves the cluster unchanged; the parsed flag is false, so
when the configuration is also valid the pass ends as a no-op without
error. -/
theorem reconcile_fail_closed_no_writes
    (r : SecretReconciler) (c : Cluster) (req : NamespacedName) (secret : Secret)
    (hget : getSecret c req.ns req.name = .found secret)
    (hflag : replicationFlagMissingOrInvalid secret = true) :
    writes (Reconcile r c req).calls = [] ∧
    (Reconcile r c req).cluster = c ∧
    (validateConfiguration secret = none →
      Reconcile r c req =
        { reconciler := r, cluster := c, calls := [ApiCall.get req.ns req.name]
          result := {}, err := none }) := by
  have hen := replicateEnabled_eq_false secret hflag
  cases hval : validateConfiguration secret with
  | some e =>
      rw [reconcile_invalid_eq r c req secret e hget hval]
      exact ⟨by simp [writes], rfl, fun h => absurd h (by simp)⟩
  | none =>
      rw [reconcile_disabled_eq r c req secret hget hval hen]
      exact ⟨by simp [writes], rfl, fun _ => rfl⟩

/-- Witness: the fail-closed claim applied to the fixture whose
`replication-allowed` annotation is present but empty. -/
theorem reconcile_fail_closed_no_writes_witness :
    writes (Reconcile wReconciler wNoFlagCluster wReq).calls = [] ∧
    (Reconcile wReconciler wNoFlagCluster wReq).cluster = wNoFlagCluster ∧
    Reconcile wReconciler wNoFlagCluster wReq =
      { reconciler := wReconciler, cluster := wNoFlagCluster
        calls := [ApiCall.get wReq.ns wReq.name], result := {}, err := none } := by
  have h := reconcile_fail_closed_no_writes wReconciler wNoFlagCluster wReq
    wNoFlagSecret (by decide) (by decide)
  exact ⟨h.1, h.2.1, h.2.2 (by decide)⟩

/-- C3: For every enabled, valid secret, when the parsed allow list is
non-empty the attempted target namespaces are exactly that list — no
exclusion filtering and no existence check (the cluster's live namespace
set plays no role); otherwise they are exactly the live namespaces minus
the source's own namespace and minus every excluded name. -/
theorem reconcile_target_selection
    (r : SecretReconciler) (c : Cluster) (req : NamespacedName) (secret : Secret)
    (hget : getSecret c req.ns req.name = .found secret)
    (hval : validateConfiguration secret = none)
    (hen : replicateEnabled secret = true) :
    (getAllowedNamespaces secret ≠ [] →
      attemptedTargets ((Reconcile r c req).calls.drop 1) =
        getAllowedNamespaces secret) ∧
    (getAllowedNamespaces secret = [] → c.listFails = false →
      attemptedTargets ((Reconcile r c req).calls.drop 1) =
        c.namespaces.filter fun n =>
          !(secret.ns == n) && !(ListContains (getExcludedNamespaces secret) n)) := by
  constructor
  · intro hlen
    rw [reconcile_allow_eq r c req secret hget hval hen hlen]
    simpa using convergeAll_targets secret c (getAllowedNamespaces secret)
  · intro hlen hlist
    rw [reconcile_default_eq r c req secret hget hval hen hlen hlist]
    have h := convergeDefault_targets secret (getExcludedNamespaces secret) c c.namespaces
    simpa [attemptedTargets] using h

/-- Witness: target selection on the default-branch fixture — cluster
namespaces `app, team-a, team-b, team-c`, source in `app`, exclude list
`team-a` — attempts exactly `team-b` and `team-c`. -/
theorem reconcile_target_selection_witness :
    attemptedTargets ((Reconcile wReconciler wDefaultCluster wReq).calls.drop 1) =
      ["team-b", "team-c"] := by
  have h := reconcile_target_selection wReconciler wDefaultCluster wReq wDefaultSecret
    (by decide) (by decide) (by decide)
  have h2 := h.2 (by decide) (by decide)
  rw [h2]
  decide

/-- C6: The reconcile interval is the parsed value of the reconcile-interval
annotation when present and parseable and the default of 5 minutes when the
annotation is absent or unparsable (unparsable is not an error), and every
pass through the allow-list branch, or completing default selection
successfully, requeues after exactly that interval with no error. -/
theorem reconcile_interval_and_requeue
    (r : SecretReconciler) (c : Cluster) (req : NamespacedName) (secret : Secret)
    (hget : getSecret c req.ns req.name = .found secret)
    (hval : validateConfiguration secret = none)
    (hen : replicateEnabled secret = true) :
    getReconciliationInterval secret =
      ((lookupAnn secret.anns (annKey ++ "/" ++ reconciliationIntervalKey)).bind
        goParseDuration).getD defaultReconcileInterval ∧
    (getAllowedNamespaces secret ≠ [] →
      (Reconcile r c req).result.requeueAfter = getReconciliationInterval secret ∧
      (Reconcile r c req).err = none) ∧
    (getAllowedNamespaces secret = [] → c.listFails = false →
      (Reconcile r c req).result.requeueAfter = getReconciliationInterval secret ∧
      (Reconcile r c req).err = none) := by
  refine ⟨?_, ?_, ?_⟩
  · unfold getReconciliationInterval
    cases hv : lookupAnn secret.anns (annKey ++ "/" ++ reconciliationIntervalKey) with
    | none => rfl
    | some v =>
        cases hp : goParseDuration v with
        | none => simp [hp]
        | some d => simp [hp]
  · intro hlen
    rw [reconcile_allow_eq r c req secret hget hval hen hlen]
    exact ⟨rfl, rfl⟩
  · intro hlen hlist
    rw [reconcile_default_eq r c req secret hget hval hen hlen hlist]
    exact ⟨rfl, rfl⟩

/-- Witness: on the allow-list fixture, whose reconcile-interval annotation
is `10m`, the interval is 600 seconds and the pass requeues after it. -/
theorem reconcile_interval_and_requeue_witness :
    getReconciliationInterval wAllowSecret = 600000000000 ∧
    (Reconcile wReconciler wAllowCluster wReq).result.requeueAfter = 600000000000 ∧
    (Reconcile wReconciler wAllowCluster wReq).err = none := by
  have h := reconcile_interval_and_requeue wReconciler wAllowCluster wReq wAllowSecret
    (by decide) (by decide) (by decide)
  have h2 := h.2.1 (by decide)
  refine ⟨by decide, ?_, h2.2⟩
  rw [h2.1]
  decide

/-- C7: When the live namespace list cannot be fetched in the
default-selection branch, `Reconcile` returns the list error together with
a requeue-after equal to the configured interval, and issues no create or
update call in that pass. -/
theorem reconcile_list_error_requeue
    (r : SecretReconciler) (c : Cluster) (req : NamespacedName) (secret : Secret)
    (hget : getSecret c req.ns req.name = .found secret)
    (hval : validateConfiguration secret = none)
    (hen : replicateEnabled secret = true)
    (hlen : getAllowedNamespaces secret = [])
    (hlist : c.listFails = true) :
    (Reconcile r c req).err = some .listError ∧
    (Reconcile r c req).result.requeueAfter = getReconciliationInterval secret ∧
    writes (Reconcile r c req).calls = [] ∧
    (Reconcile r c req).cluster = c := by
  rw [reconcile_listfail_eq r c req secret hget hval hen hlen hlist]
  exact ⟨rfl, rfl, by simp [writes], rfl⟩

/-- Witness: the list-error claim on the fixture cluster whose namespace
list call fails; the requeue interval is the 5 minute default. -/
theorem reconcile_list_error_requeue_witness :
    (Reconcile wReconciler wListFailCluster wReq).err = some .listError ∧
    (Reconcile wReconciler wListFailCluster wReq).result.requeueAfter =
      getReconciliationInterval wDefaultSecret ∧
    writes (Reconcile wReconciler wListFailCluster wReq).calls = [] ∧
    (Reconcile wReconciler wListFailCluster wReq).cluster = wListFailCluster :=
  reconcile_list_error_requeue wReconciler wListFailCluster wReq wDefaultSecret
    (by decide) (by decide) (by decide) (by decide) (by decide)

/-- C4: For every target namespace with no replica named after the source,
convergence issues a create of an object whose payload equals the source's
and whose annotations map the provenance key to
`sourceNamespace_sourceName`, and (when the create call succeeds) the
replica is then found with exactly that content; for a replica whose
payload differs from the source's, convergence issues an update after
which (when the update call succeeds) the replica's payload equals the
source's. -/
theorem createSecret_create_and_update_converge
    (c : Cluster) (src : Secret) (ns : String) :
    (getSecret c ns src.name = .notFound →
      (createSecret c src ns).2 =
        [ApiCall.get ns src.name,
         ApiCall.create
           { name := src.name, ns := ns
             anns := [(annKey ++ "/" ++ replicatedFromKey, src.ns ++ "_" ++ src.name)]
             data := src.data }] ∧
      (ns ∉ c.createFailNss →
        getSecret (createSecret c src ns).1 ns src.name =
          .found
            { name := src.name, ns := ns
              anns := [(annKey ++ "/" ++ replicatedFromKey, src.ns ++ "_" ++ src.name)]
              data := src.data })) ∧
    (∀ rep, getSecret c ns src.name = .found rep → rep.data ≠ src.data →
      (createSecret c src ns).2 =
        [ApiCall.get ns src.name, ApiCall.update { rep with data := src.data }] ∧
      ((ns, src.name) ∉ c.updateFailKeys →
        getSecret (createSecret c src ns).1 ns src.name =
          .found { rep with data := src.data })) := by
  constructor
  · intro hget
    constructor
    · by_cases hcf : ns ∈ c.createFailNss
      · rw [createSecret_notFound_fail_eq c src ns hget hcf]
      · rw [createSecret_notFound_ok_eq c src ns hget hcf]
    · intro hcf
      rw [createSecret_notFound_ok_eq c src ns hget hcf]
      exact getSecret_after_append hget rfl rfl
  · intro rep hget hd
    have hd' : src.data ≠ rep.data := fun h => hd h.symm
    constructor
    · by_cases huf : (ns, src.name) ∈ c.updateFailKeys
      · rw [createSecret_found_diff_fail_eq c src ns rep hget hd' huf]
      · rw [createSecret_found_diff_ok_eq c src ns rep hget hd' huf]
    · intro huf
      rw [createSecret_found_diff_ok_eq c src ns rep hget hd' huf]
      obtain ⟨-, -, hrns, hrname⟩ := getSecret_found_elim hget
      exact getSecret_after_update hget hrns hrname

/-- Witness: creating the missing replica of the fixture source in
`team-a` issues the expected create call, and the replica is then found
with the source's payload and the provenance annotation. -/
theorem createSecret_create_and_update_converge_witness :
    (createSecret wEmptyCluster wAllowSecret "team-a").2 =
      [ApiCall.get "team-a" wAllowSecret.name,
       ApiCall.create
         { name := wAllowSecret.name, ns := "team-a"
           anns := [(annKey ++ "/" ++ replicatedFromKey,
                     wAllowSecret.ns ++ "_" ++ wAllowSecret.name)]
           data := wAllowSecret.data }] ∧
    getSecret (createSecret wEmptyCluster wAllowSecret "team-a").1 "team-a"
        wAllowSecret.name =
      .found
        { name := wAllowSecret.name, ns := "team-a"
          anns := [(annKey ++ "/" ++ replicatedFromKey,
                    wAllowSecret.ns ++ "_" ++ wAllowSecret.name)]
          data := wAllowSecret.data } := by
  have h :=
    (createSecret_create_and_update_converge wEmptyCluster wAllowSecret "team-a").1
      (by decide)
  exact ⟨h.1, h.2 (by decide)⟩

/-- C5: Convergence is idempotent: when the replica's payload is deep-equal
to the source's, `createSecret` issues no update and no create and leaves
the cluster unchanged; and after one successful pass for a namespace the
next pass there performs zero write calls. -/
theorem createSecret_idempotent (c : Cluster) (src : Secret) (ns : String) :
    (∀ rep, getSecret c ns src.name = .found rep → rep.data = src.data →
      createSecret c src ns = (c, [ApiCall.get ns src.name])) ∧
    ((ns, src.name) ∉ c.getFailKeys → ns ∉ c.createFailNss →
      (ns, src.name) ∉ c.updateFailKeys →
      writes (createSecret (createSecret c src ns).1 src ns).2 = []) := by
  constructor
  · intro rep hget hd
    exact createSecret_found_same_eq c src ns rep hget hd.symm
  · intro hgf hcf huf
    cases hget : getSecret c ns src.name with
    | notFound =>
        simp only [createSecret_notFound_ok_eq c src ns hget hcf]
        have h2 := getSecret_after_append (s :=
          { name := src.name, ns := ns
            anns := [(annKey ++ "/" ++ replicatedFromKey, src.ns ++ "_" ++ src.name)]
            data := src.data }) hget rfl rfl
        rw [createSecret_found_same_eq _ src ns _ h2 rfl]
        simp [writes]
    | found rep =>
        by_cases hd : src.data = rep.data
        · simp only [createSecret_found_same_eq c src ns rep hget hd]
          simp [writes]
        · simp only [createSecret_found_diff_ok_eq c src ns rep hget hd huf]
          obtain ⟨-, -, hrns, hrname⟩ := getSecret_found_elim hget
          have h2 := @getSecret_after_update c ns src.name rep
            { rep with data := src.data } hget hrns hrname
          rw [createSecret_found_same_eq _ src ns _ h2 rfl]
          simp [writes]
    | otherError => exact absurd (getSecret_otherError_mem hget) hgf

/-- Witness: on the synced fixture the pass is a pure read, and on the
drifted fixture the second pass after the update performs zero writes. -/
theorem createSecret_idempotent_witness :
    createSecret wSyncedCluster wAllowSecret "team-a" =
      (wSyncedCluster, [ApiCall.get "team-a" wAllowSecret.name]) ∧
    writes (createSecret (createSecret wDriftCluster wAllowSecret "team-a").1
        wAllowSecret "team-a").2 = [] := by
  refine ⟨(createSecret_idempotent wSyncedCluster wAllowSecret "team-a").1
      wSyncedReplica (by decide) (by decide),
    (createSecret_idempotent wDriftCluster wAllowSecret "team-a").2
      (by decide) (by decide) (by decide)⟩

/-- C8: `AppendListItem` suppresses duplicates — it returns the list
unchanged when the item is already an element and appends it once
otherwise; it is idempotent; a duplicate-free list stays duplicate-free
under any sequence of appends; and a pass keeps the request's identity at
most once in the reconciler's `SecretList`. -/
theorem appendListItem_dedup_invariants {T : Type} [DecidableEq T]
    (l : List T) (x : T) (xs : List T)
    (r : SecretReconciler) (c : Cluster) (req : NamespacedName) :
    (x ∈ l → AppendListItem l x = l) ∧
    (x ∉ l → AppendListItem l x = l ++ [x]) ∧
    AppendListItem (AppendListItem l x) x = AppendListItem l x ∧
    (l.Nodup → (xs.foldl AppendListItem l).Nodup) ∧
    (r.SecretList.count req ≤ 1 →
      ((Reconcile r c req).reconciler.SecretList).count req ≤ 1) := by
  have happ : ∀ (l' : List T) (y : T), l'.Nodup → (AppendListItem l' y).Nodup := by
    intro l' y hl'
    by_cases hy : y ∈ l'
    · rw [appendListItem_of_mem hy]; exact hl'
    · rw [appendListItem_of_not_mem hy]
      simpa [List.nodup_append] using ⟨hl', hy⟩
  refine ⟨?_, ?_, ?_, ?_, ?_⟩
  · exact appendListItem_of_mem
  · exact appendListItem_of_not_mem
  · by_cases h : x ∈ l
    · rw [appendListItem_of_mem h, appendListItem_of_mem h]
    · rw [appendListItem_of_not_mem h,
        appendListItem_of_mem (by simp : x ∈ l ++ [x])]
  · intro hl
    induction xs generalizing l with
    | nil => simpa using hl
    | cons y ys ih => exact ih (AppendListItem l y) (happ l y hl)
  · intro hcount
    rcases reconcile_secretList_cases r c req with h | h
    · rw [h]; exact hcount
    · rw [h]
      by_cases hy : req ∈ r.SecretList
      · rw [appendListItem_of_mem hy]
        exact hcount
      · rw [appendListItem_of_not_mem hy]
        have h0 : r.SecretList.count req = 0 := List.count_eq_zero.mpr hy
        simp [List.count_append, h0]

/-- Witness: duplicate suppression, append-once, idempotent re-append,
no-duplicate preservation under a fold, and the tracked list bound after a
concrete pass. -/
theorem appendListItem_dedup_invariants_witness :
    AppendListItem [1, 2] 2 = [1, 2] ∧
    AppendListItem [1, 2] 3 = [1, 2, 3] ∧
    (List.foldl AppendListItem [1, 2] [3, 2, 3]).Nodup ∧
    ((Reconcile wReconciler wAllowCluster wReq).reconciler.SecretList).count wReq ≤ 1 := by
  have h1 := appendListItem_dedup_invariants [1, 2] 2 [3, 2, 3]
    wReconciler wAllowCluster wReq
  have h2 := appendListItem_dedup_invariants [1, 2] 3 [3, 2, 3]
    wReconciler wAllowCluster wReq
  exact ⟨h1.1 (by decide), h2.2.1 (by decide), h1.2.2.2.1 (by decide),
    h1.2.2.2.2 (by decide)⟩

/-- C9: When the allowed-namespaces annotation is present with the empty
string as its value, the parsed allow list is `[""]`, so the allow-list
branch is taken — no namespace list call is made — and the engine attempts
convergence for the empty-named namespace. -/
theorem empty_allow_ann_singleton_branch
    (r : SecretReconciler) (c : Cluster) (req : NamespacedName) (secret : Secret)
    (hget : getSecret c req.ns req.name = .found secret)
    (hann : lookupAnn secret.anns (annKey ++ "/" ++ allowedNamespacesKey) = some "")
    (hval : validateConfiguration secret = none)
    (hen : replicateEnabled secret = true) :
    getAllowedNamespaces secret = [""] ∧
    ApiCall.list ∉ (Reconcile r c req).calls ∧
    attemptedTargets ((Reconcile r c req).calls.drop 1) = [""] := by
  have hallow : getAllowedNamespaces secret = [""] := by
    unfold getAllowedNamespaces
    rw [hann]
    rfl
  have hlen : getAllowedNamespaces secret ≠ [] := by rw [hallow]; simp
  refine ⟨hallow, ?_, ?_⟩
  · rw [reconcile_allow_eq r c req secret hget hval hen hlen]
    intro hmem
    rcases List.mem_cons.mp hmem with h | h
    · cases h
    · exact convergeAll_no_list secret c _ h
  · rw [reconcile_allow_eq r c req secret hget hval hen hlen]
    have h := convergeAll_targets secret c (getAllowedNamespaces secret)
    simpa [hallow] using h

/-- Witness: the empty-valued allow annotation on the concrete fixture
takes the allow branch and attempts the empty-named namespace. -/
theorem empty_allow_ann_singleton_branch_witness :
    getAllowedNamespaces wEmptyAllowSecret = [""] ∧
    ApiCall.list ∉ (Reconcile wReconciler wEmptyAllowCluster wReq).calls ∧
    attemptedTargets ((Reconcile wReconciler wEmptyAllowCluster wReq).calls.drop 1) =
      [""] :=
  empty_allow_ann_singleton_branch wReconciler wEmptyAllowCluster wReq
    wEmptyAllowSecret (by decide) (by decide) (by decide) (by decide)

/-- C10: Frame property of update-on-drift: every update call issued when
the fetched replica's payload differs from the source's carries the fetched
replica with only its data replaced — name, namespace and annotations pass
through unchanged, so no provenance annotation is added on update. -/
theorem update_frame_preserves_fields
    (c : Cluster) (src : Secret) (ns : String) (rep : Secret)
    (hget : getSecret c ns src.name = .found rep)
    (hne : rep.data ≠ src.data) :
    ∀ u, ApiCall.update u ∈ (createSecret c src ns).2 →
      u.name = rep.name ∧ u.ns = rep.ns ∧ u.anns = rep.anns ∧ u.data = src.data := by
  intro u hu
  have hd' : src.data ≠ rep.data := fun h => hne h.symm
  by_cases huf : (ns, src.name) ∈ c.updateFailKeys
  · rw [createSecret_found_diff_fail_eq c src ns rep hget hd' huf] at hu
    simp only [List.mem_cons, List.mem_singleton, reduceCtorEq, false_or,
      List.not_mem_nil, or_false, ApiCall.update.injEq] at hu
    subst hu
    exact ⟨rfl, rfl, rfl, rfl⟩
  · rw [createSecret_found_diff_ok_eq c src ns rep hget hd' huf] at hu
    simp only [List.mem_cons, List.mem_singleton, reduceCtorEq, false_or,
      List.not_mem_nil, or_false, ApiCall.update.injEq] at hu
    subst hu
    exact ⟨rfl, rfl, rfl, rfl⟩

/-- Witness: the update issued for the drifted fixture replica keeps its
name, namespace and annotations and carries the source's payload. -/
theorem update_frame_preserves_fields_witness :
    wUpdatedReplica.name = wDriftReplica.name ∧
    wUpdatedReplica.ns = wDriftReplica.ns ∧
    wUpdatedReplica.anns = wDriftReplica.anns ∧
    wUpdatedReplica.data = wAllowSecret.data :=
  update_frame_preserves_fields wDriftCluster wAllowSecret "team-a" wDriftReplica
    (by decide) (by decide) wUpdatedReplica (by decide)

end SecretReplicator

